import Mathlib

/-!
Verification of the sitreps-client CI log analysis engine, the coverage
extraction helpers and the polling retry executor against their
natural-language specification.

Python strings are modelled as `List Char`; logs, lines, tool names and
patterns are all `List Char`.  Every definition is executable and is
translated from the Python sources in `sitreps_client`
(`unit_tests.py`, `code_coverage.py`, `utils/helpers.py`), except where a
doc comment says `Modelled from the spec:` (the function `escape_ansi` is
imported by `unit_tests.py` from `utils.helpers` but its definition is not
part of the provided sources, so it is modelled from spec section 4.2).
-/

/-- Characters of a string literal, the representation used for Python text. -/
def chs (s : String) : List Char := s.data

/-- Boolean prefix test on character lists (Python `str.startswith`, used to
implement substring search and anchored pattern matching). -/
def prefB : List Char → List Char → Bool
  | [], _ => true
  | _ :: _, [] => false
  | a :: as, b :: bs => a == b && prefB as bs

/-- Substring containment: `hasSub n h` models Python `n in h`. -/
def hasSub (n : List Char) : List Char → Bool
  | [] => prefB n []
  | h@(_ :: t) => prefB n h || hasSub n t

/-- Numeric value of a digit string (Python `int` applied to the digits that a
`([0-9]+)` group captured). -/
def digitsVal (d : List Char) : Nat := d.foldl (fun a c => 10 * a + (c.toNat - 48)) 0

/-- Anchored match of a regex of the form `pre([0-9]+)post` at the start of
`hay`, returning the captured integer.  Faithful to Python `re` semantics for
the patterns used in `unit_tests.py`, whose `post` part is empty or starts
with a non-digit character: the greedy `[0-9]+` then captures exactly the
maximal digit run, since backtracking into the run would place a digit where
`post` needs a non-digit. -/
def matchPP (pre post hay : List Char) : Option Nat :=
  if prefB pre hay then
    let rest := hay.drop pre.length
    let d := rest.takeWhile (fun c => c.isDigit)
    let r := rest.dropWhile (fun c => c.isDigit)
    if !d.isEmpty && prefB post r then some (digitsVal d) else none
  else none

/-- Model of `re.search` for a pattern `pre([0-9]+)post` (leftmost match wins),
returning `int(match.group(1))`. -/
def searchPP (pre post : List Char) : List Char → Option Nat
  | [] => matchPP pre post []
  | h@(_ :: t) =>
    match matchPP pre post h with
    | some n => some n
    | none => searchPP pre post t

/-- Anchored match for the tail `, ([0-9]+) total` of the npm pattern. -/
def npmAt (r : List Char) : Option Nat := matchPP (chs ", ") (chs " total") r

/-- Greedy search for the rightmost position (after at least one character,
the `.+` of the pattern) where `, ([0-9]+) total` matches: Python's greedy
`.+` consumes as much as possible and backtracks from the right. -/
def npmGreedyAux : List Char → Option Nat
  | [] => none
  | _ :: t =>
    match npmGreedyAux t with
    | some n => some n
    | none => npmAt t

/-- Model of `re.search("Tests:.+, ([0-9]+) total", hay)` returning the captured
integer: leftmost occurrence of `Tests:` admitting a completion, with the
greedy `.+` resolved to the rightmost viable `, ([0-9]+) total`.  Faithful
for inputs without a newline character, which holds for all lines produced
by `splitlines`. -/
def npmSearch : List Char → Option Nat
  | [] => none
  | h@(_ :: t) =>
    match (if prefB (chs "Tests:") h then npmGreedyAux (h.drop 6) else none) with
    | some n => some n
    | none => npmSearch t

/-- ASCII letter test (terminator class of an ANSI CSI escape sequence). -/
def isAsciiLetter (c : Char) : Bool := ('a' ≤ c && c ≤ 'z') || ('A' ≤ c && c ≤ 'Z')

/-- The line-boundary characters of Python `str.splitlines`. -/
def isLineBreakChar (c : Char) : Bool :=
  c == '\n' || c == '\r' || c == '\x0b' || c == '\x0c' ||
  c == '\x1c' || c == '\x1d' || c == '\x1e' || c == '\x85' ||
  c == ' ' || c == ' '

/-- Consume the parameter part of a CSI escape sequence up to and including
its terminating letter; `none` when no terminator is found before a line
break or the end of the text (in which case the sequence is left in place,
respecting the spec's promise that line breaks are preserved verbatim). -/
def splitCSI : List Char → Option (List Char)
  | [] => none
  | c :: rest =>
    if isAsciiLetter c then some rest
    else if isLineBreakChar c then none
    else splitCSI rest

/-- Fuelled worker for `escape_ansi`; the fuel only bounds recursion depth
and `escape_ansi` supplies fuel equal to the input length, which every
branch strictly exceeds in consumed characters. -/
def escapeAnsiF : Nat → List Char → List Char
  | 0, s => s
  | _ + 1, [] => []
  | f + 1, c :: rest =>
    if c = '\x1b' then
      match rest with
      | '[' :: rest2 =>
        match splitCSI rest2 with
        | some rest3 => escapeAnsiF f rest3
        | none => c :: '[' :: escapeAnsiF f rest2
      | _ => c :: escapeAnsiF f rest
    else c :: escapeAnsiF f rest

/-- Modelled from the spec: `escape_ansi` is imported by `unit_tests.py` from
`sitreps_client.utils.helpers` but its definition is not in the provided
sources.  Spec section 4.2 (AnsiStripper): removes all ANSI CSI escape
sequences (ESC `[` ... terminated by a letter) and preserves all other
characters and line breaks verbatim; idempotent on clean text. -/
def escape_ansi (s : List Char) : List Char := escapeAnsiF s.length s

/-- Python `str.splitlines`: split at line boundaries, treating `\r\n` as a
single boundary and producing no trailing empty line for a trailing
boundary. -/
def splitlines : List Char → List (List Char)
  | [] => []
  | c :: rest =>
    if isLineBreakChar c then
      match rest with
      | c2 :: rest2 =>
        if c = '\r' && c2 = '\n' then [] :: splitlines rest2
        else [] :: splitlines (c2 :: rest2)
      | [] => [] :: splitlines []
    else
      match splitlines rest with
      | [] => [[c]]
      | l :: ls => (c :: l) :: ls

/-- Python `str.split(",")` as used for the `test_tool` override. -/
def splitOnComma : List Char → List (List Char)
  | [] => [[]]
  | ',' :: r => [] :: splitOnComma r
  | c :: r =>
    match splitOnComma r with
    | [] => [[c]]
    | l :: ls => (c :: l) :: ls

/-- Membership of a tool name in the resolved `tools` collection
(Python `"name" in tools`). -/
def hasTool (tools : List (List Char)) (t : String) : Bool := tools.contains t.data

/-- The termination-marker test of `_get_tests_count`: a line containing the
codecov upload notification or the bonfire deployment marker ends the scan. -/
def isTermLine (line : List Char) : Bool :=
  hasSub (chs "https://codecov.io/upload") line || hasSub (chs "bonfire deploy-iqe-cji") line

/-- The amount one line adds to `tests_count` in the loop body of
`BaseUnitTests._get_tests_count`: the branches are tried in source order and
each branch ends in `continue`, so the first branch whose membership test and
substring guards hold is the only one that contributes. -/
def lineCount (tools : List (List Char)) (line : List Char) : Nat :=
  if hasTool tools "gotest" && hasSub (chs "=== RUN ") line then 1
  else if hasTool tools "pytest" && (hasSub (chs "collected ") line && hasSub (chs " items") line) then
    (searchPP (chs "collected ") (chs " items") line).getD 0
  else if hasTool tools "pyunittest" && (hasSub (chs "Ran ") line && hasSub (chs " tests in ") line) then
    (searchPP (chs "Ran ") (chs " tests in") line).getD 0
  else if hasTool tools "npm" && (hasSub (chs "Tests:") line && hasSub (chs " total") line) then
    (npmSearch line).getD 0
  else if hasTool tools "rake" && (hasSub (chs "tests") line && hasSub (chs "assertions") line && hasSub (chs "failures") line) then
    (searchPP [] (chs " tests,") line).getD 0
  else if hasTool tools "maven" && (hasSub (chs "Tests run") line && hasSub (chs "Failures") line && hasSub (chs "Errors") line && hasSub (chs "Skipped") line) then
    (searchPP (chs "Tests run: ") (chs ",") line).getD 0
  else if hasTool tools "other" && (hasSub (chs "Suite duration: ") line && hasSub (chs " Tests: ") line) then
    (searchPP (chs "Tests: ") [] line).getD 0
  else 0

/-- The main loop of `BaseUnitTests._get_tests_count` over the already split
lines: stop at the first termination-marker line, otherwise accumulate each
line's contribution. -/
def countLines (tools : List (List Char)) : List (List Char) → Nat
  | [] => 0
  | l :: ls => if isTermLine l then 0 else lineCount tools l + countLines tools ls

/-- Model of `BaseUnitTests._get_tests_count` with the `tools` collection already
resolved (from a comma-separated override or from detection): strip ANSI
escapes, split into lines and run the counting loop. -/
def get_tests_count (tools : List (List Char)) (ciLog : List Char) : Nat :=
  countLines tools (splitlines (escape_ansi ciLog))

/-- The tools appended for one line by `BaseUnitTests._get_testing_tools`
(these detection guards are independent `if`s, not an if/elif chain). -/
def detectInLine (line : List Char) : List (List Char) :=
  (if hasSub (chs "=== RUN ") line then [chs "gotest"] else []) ++
  (if hasSub (chs "pytest") line || hasSub (chs "py.test") line then [chs "pytest"] else []) ++
  (if hasSub (chs "Ran ") line && hasSub (chs " tests in ") line then [chs "pyunittest"] else []) ++
  (if hasSub (chs "Suite duration: ") line && hasSub (chs " Tests: ") line then [chs "other"] else []) ++
  (if hasSub (chs "npm") line || hasSub (chs "yarn test") line then [chs "npm"] else []) ++
  (if hasSub (chs "rake ") line && hasSub (chs "validate") line then [chs "rake"] else []) ++
  (if hasSub (chs "maven") line then [chs "maven"] else [])

/-- Model of `BaseUnitTests._get_testing_tools`: collect tool names over the stripped
lines.  The Python function returns a set; only membership of the result is
ever used, so duplicates in this list are irrelevant. -/
def detectTools (ciLog : List Char) : List (List Char) :=
  (splitlines (escape_ansi ciLog)).foldr (fun l acc => detectInLine l ++ acc) []

/-- Model of `BaseUnitTests._get_tests_count` with its optional `test_tool` argument:
a truthy (non-empty) override is split on commas, otherwise tools are
detected from the log. -/
def get_tests_count_opt (ciLog : List Char) (testTool : Option (List Char)) : Nat :=
  let tools :=
    match testTool with
    | some t => if t.isEmpty then detectTools ciLog else splitOnComma t
    | none => detectTools ciLog
  countLines tools (splitlines (escape_ansi ciLog))

/-- The seven testing tools of `unit_tests.py`, in the order in which the
branches of `_get_tests_count` try them. -/
inductive ToolName where
  | gotest | pytest | pyunittest | npm | rake | maven | other
deriving DecidableEq

/-- The membership key each branch looks up in `tools`. -/
def toolKey : ToolName → String
  | ToolName.gotest => "gotest"
  | ToolName.pytest => "pytest"
  | ToolName.pyunittest => "pyunittest"
  | ToolName.npm => "npm"
  | ToolName.rake => "rake"
  | ToolName.maven => "maven"
  | ToolName.other => "other"

/-- The substring guard of one tool's branch in `_get_tests_count`. -/
def guardB : ToolName → List Char → Bool
  | ToolName.gotest, line => hasSub (chs "=== RUN ") line
  | ToolName.pytest, line => hasSub (chs "collected ") line && hasSub (chs " items") line
  | ToolName.pyunittest, line => hasSub (chs "Ran ") line && hasSub (chs " tests in ") line
  | ToolName.npm, line => hasSub (chs "Tests:") line && hasSub (chs " total") line
  | ToolName.rake, line => hasSub (chs "tests") line && hasSub (chs "assertions") line && hasSub (chs "failures") line
  | ToolName.maven, line => hasSub (chs "Tests run") line && hasSub (chs "Failures") line && hasSub (chs "Errors") line && hasSub (chs "Skipped") line
  | ToolName.other, line => hasSub (chs "Suite duration: ") line && hasSub (chs " Tests: ") line

/-- The value one tool's branch adds to `tests_count` once its guard holds
(0 when the regex finds no capture, as the `except ... pass` swallows the
failure). -/
def extractB : ToolName → List Char → Nat
  | ToolName.gotest, _ => 1
  | ToolName.pytest, line => (searchPP (chs "collected ") (chs " items") line).getD 0
  | ToolName.pyunittest, line => (searchPP (chs "Ran ") (chs " tests in") line).getD 0
  | ToolName.npm, line => (npmSearch line).getD 0
  | ToolName.rake, line => (searchPP [] (chs " tests,") line).getD 0
  | ToolName.maven, line => (searchPP (chs "Tests run: ") (chs ",") line).getD 0
  | ToolName.other, line => (searchPP (chs "Tests: ") [] line).getD 0

/-- Whole condition of one tool's branch: tool membership plus the guard. -/
def toolCond (t : ToolName) (tools : List (List Char)) (line : List Char) : Bool :=
  hasTool tools (toolKey t) && guardB t line

/-- The contribution of a line when counted for a single tool on its own. -/
def toolLineCount (t : ToolName) (line : List Char) : Nat :=
  if guardB t line then extractB t line else 0

/-- The first tool, in branch order, whose branch condition holds for the
line; spec-side description of which branch of `_get_tests_count` fires. -/
def firstTool (tools : List (List Char)) (line : List Char) : Option ToolName :=
  if toolCond ToolName.gotest tools line then some ToolName.gotest
  else if toolCond ToolName.pytest tools line then some ToolName.pytest
  else if toolCond ToolName.pyunittest tools line then some ToolName.pyunittest
  else if toolCond ToolName.npm tools line then some ToolName.npm
  else if toolCond ToolName.rake tools line then some ToolName.rake
  else if toolCond ToolName.maven tools line then some ToolName.maven
  else if toolCond ToolName.other tools line then some ToolName.other
  else none

/-- Spec-side per-line contribution: the extraction of the first matching
tool only. -/
def specLineCount (tools : List (List Char)) (line : List Char) : Nat :=
  match firstTool tools line with
  | some t => extractB t line
  | none => 0

/-- Spec-side counting loop built from `specLineCount`, with the same
termination-marker behaviour as `countLines`. -/
def specCountLines (tools : List (List Char)) : List (List Char) → Nat
  | [] => 0
  | l :: ls => if isTermLine l then 0 else specLineCount tools l + specCountLines tools ls

/-- Leading- and trailing-whitespace strip, as Python `float` applies to its
string argument. -/
def trimWS (s : List Char) : List Char :=
  ((s.dropWhile (fun c => c.isWhitespace)).reverse.dropWhile (fun c => c.isWhitespace)).reverse

/-- Exponent tail of a float literal; `num` over `den` is the signed
significand, and the final value is assembled with a single `mkRat`. -/
def parseExp (num : Int) (den : Nat) : List Char → Option Rat
  | [] => some (mkRat num den)
  | e :: t =>
    if e == 'e' || e == 'E' then
      let sgnPos : Bool := match t with
        | '-' :: _ => false
        | _ => true
      let t1 : List Char := match t with
        | '+' :: u => u
        | '-' :: u => u
        | u => u
      let ed := t1.takeWhile (fun c => c.isDigit)
      let rest := t1.dropWhile (fun c => c.isDigit)
      if ed.isEmpty || !rest.isEmpty then none
      else if sgnPos then some (mkRat (num * ((10 : Nat) ^ digitsVal ed : Nat)) den)
      else some (mkRat num (den * 10 ^ digitsVal ed))
    else none

/-- Model of Python `float(str)` on the decimal grammar
`[+-] digits [. digits] [ (e|E) [+-] digits ]` (surrounding whitespace
stripped); `none` models a raised `ValueError`.  The special forms `inf`,
`nan` and underscore separators are outside the model; no input in this
development uses them. -/
def pyFloat (s : List Char) : Option Rat :=
  let s0 := trimWS s
  let neg : Bool := match s0 with
    | '-' :: _ => true
    | _ => false
  let s1 : List Char := match s0 with
    | '+' :: u => u
    | '-' :: u => u
    | u => u
  let ip := s1.takeWhile (fun c => c.isDigit)
  let r1 := s1.dropWhile (fun c => c.isDigit)
  match r1 with
  | '.' :: r2 =>
    let fp := r2.takeWhile (fun c => c.isDigit)
    let r3 := r2.dropWhile (fun c => c.isDigit)
    if ip.isEmpty && fp.isEmpty then none
    else
      let mant : Nat := digitsVal ip * 10 ^ fp.length + digitsVal fp
      parseExp (if neg then -(mant : Int) else (mant : Int)) (10 ^ fp.length) r3
  | _ =>
    if ip.isEmpty then none
    else parseExp (if neg then -(digitsVal ip : Int) else (digitsVal ip : Int)) 1 r1

/-- JSON values as decoded by `response.json()`: Python `None`, `bool`,
`str`, numbers, lists and string-keyed dicts. -/
inductive Json where
  | null : Json
  | bool : Bool → Json
  | str : List Char → Json
  | num : Rat → Json
  | arr : List Json → Json
  | obj : List (List Char × Json) → Json

/-- First binding of a key in a decoded JSON dict. -/
def lookupKey (k : List Char) : List (List Char × Json) → Option Json
  | [] => none
  | (k', v) :: rest => if k' == k then some v else lookupKey k rest

/-- Python `d.get(key, default)` on a decoded JSON value.  The sources only
call `.get` on dict-shaped values (a non-dict would raise `AttributeError` in
Python); for non-dict input the model returns the default. -/
def jGetD (j : Json) (k : List Char) (d : Json) : Json :=
  match j with
  | Json.obj fs => (lookupKey k fs).getD d
  | _ => d

/-- Python `d.get(key)` followed by an `is None` check: a missing key and a
key bound to JSON null are indistinguishable afterwards, so both give
`none`. -/
def jGetOpt (j : Json) (k : List Char) : Option Json :=
  match j with
  | Json.obj fs =>
    match lookupKey k fs with
    | some Json.null => none
    | some v => some v
    | none => none
  | _ => none

/-- Python truthiness of a decoded JSON value. -/
def truthy : Json → Bool
  | Json.null => false
  | Json.bool b => b
  | Json.str s => !s.isEmpty
  | Json.num q => q != 0
  | Json.arr xs => !xs.isEmpty
  | Json.obj fs => !fs.isEmpty

/-- Python `float(x)` applied to a decoded JSON value:
strings go through `pyFloat` (`ValueError` on failure), numbers and booleans
convert, everything else raises `TypeError`.  Raised errors are modelled as
`Except.error ()`. -/
def jToFloat : Json → Except Unit Rat
  | Json.str s =>
    match pyFloat s with
    | some q => Except.ok q
    | none => Except.error ()
  | Json.num q => Except.ok q
  | Json.bool b => Except.ok (if b then 1 else 0)
  | _ => Except.error ()

/-- The JSON-processing part of `CodecovCoverage.get_coverage` (everything
after the response has been fetched and decoded): check
`commit.totals` first, fall back to `commits[0].totals`, return `None` when
no value is present, and apply `float` to the located value.
`Except.error ()` models a raised exception (`ValueError` from a malformed
string, or `TypeError`/indexing errors from a truthy non-list `commits`). -/
def get_coverage (responseJson : Json) : Except Unit (Option Rat) :=
  let t1 := jGetD (jGetD responseJson (chs "commit") (Json.obj [])) (chs "totals") (Json.obj [])
  let covStrE : Except Unit (Option Json) :=
    if truthy t1 then Except.ok (jGetOpt t1 (chs "c"))
    else
      let t2 := jGetD responseJson (chs "commits") (Json.arr [])
      if truthy t2 then
        match t2 with
        | Json.arr (x :: _) => Except.ok (jGetOpt (jGetD x (chs "totals") (Json.obj [])) (chs "c"))
        | Json.arr [] => Except.ok none
        | _ => Except.error ()
      else Except.ok none
  match covStrE with
  | Except.error e => Except.error e
  | Except.ok none => Except.ok none
  | Except.ok (some v) =>
    match jToFloat v with
    | Except.ok q => Except.ok (some q)
    | Except.error e => Except.error e

/-- The observable behaviour of `match = re.search(pattern, string)` followed
by `match.group(1)`: either the first capture group is missing from the
pattern (`group(1)` raises `IndexError`, modelled `Except.error ()`), or it
yields an optional string (Python `None` when the group did not participate
in the match). -/
structure ReMatch where
  group1 : Except Unit (Option (List Char))

/-- Model of `get_regex_cov(pattern, string)` of `code_coverage.py`, abstracted over
the behaviour of the compiled pattern on the string: `none` input models
`re.search` returning no match.  `IndexError` from a missing group and
`ValueError` from an unparseable captured string are caught and give `None`;
a participating-but-`None` group would reach `float(None)` and raise
`TypeError`, which the `except (IndexError, ValueError)` clause does not
catch. -/
def get_regex_cov (searchResult : Option ReMatch) : Except Unit (Option Rat) :=
  match searchResult with
  | none => Except.ok none
  | some m =>
    match m.group1 with
    | Except.error _ => Except.ok none
    | Except.ok none => Except.error ()
    | Except.ok (some s) =>
      match pyFloat s with
      | some q => Except.ok (some q)
      | none => Except.ok none

/-- Abstract Python exception value (the model never inspects it). -/
inductive PyErr where
  | mk : Nat → PyErr
deriving DecidableEq

/-- Observable events of a `wait_for` run: the i-th invocation of `func`
(the flag records whether it raised) and a call to `time.sleep(delay)`. -/
inductive WEvent where
  | call : Nat → Bool → WEvent
  | sleep : Int → WEvent
deriving DecidableEq

/-- Outcome of a `wait_for` run: a normal return of the
`(response, err, tries)` triple; a raised `UnboundLocalError` (the final
`return response, err, tries` executed although the loop body never ran and
never assigned the locals); a raised `ValueError` from `time.sleep(delay)`
with a negative delay (the sleep call sits outside the try, so the exception
propagates out of `wait_for`); or exhaustion of the model's fuel (standing
for a run that is still looping). -/
inductive WResult (α : Type) where
  | returned : Option α → Option PyErr → Nat → WResult α
  | unboundLocal : WResult α
  | sleepError : WResult α
  | outOfFuel : WResult α
deriving DecidableEq

/-- The `while` loop of `wait_for` (`utils/helpers.py`).  Successive
`time.time()` readings are `clock 0, clock 1, ...` (`clock 0` computed
`end_time`, each loop-condition check consumes the next reading); `ops i` is
the outcome of the i-th invocation of `func`; `tru` is Python truthiness on
the result type; `resp`/`err` carry the current values of the locals
`response` and `err` (`none` while still unbound).  Python's float-valued
times are modelled as exact integers.  `time.sleep(delay)` raises
`ValueError` when `delay` is negative; since that call is outside the try,
the falsy-result path then ends the run with `WResult.sleepError` (a `sleep`
event is recorded only for a completed sleep).  Returns the outcome and the
event trace. -/
def waitForLoop {α : Type} (ops : Nat → Except PyErr α) (tru : α → Bool) (clock : Nat → Int)
    (endTime delay : Int) (ignoreFalsy : Bool) :
    Nat → Nat → Nat → Option (Option α) → Option (Option PyErr) → WResult α × List WEvent
  | 0, _, _, _, _ => (WResult.outOfFuel, [])
  | fuel + 1, k, tries, resp, err =>
    if clock k < endTime then
      match ops tries with
      | Except.error e =>
        let r := waitForLoop ops tru clock endTime delay ignoreFalsy fuel (k + 1) (tries + 1)
          (some none) (some (some e))
        (r.1, WEvent.call tries true :: r.2)
      | Except.ok v =>
        if tru v || ignoreFalsy then
          (WResult.returned (some v) none (tries + 1), [WEvent.call tries false])
        else if delay < 0 then
          (WResult.sleepError, [WEvent.call tries false])
        else
          let r := waitForLoop ops tru clock endTime delay ignoreFalsy fuel (k + 1) (tries + 1)
            (some (some v)) (some none)
          (r.1, WEvent.call tries false :: WEvent.sleep delay :: r.2)
    else
      match resp, err with
      | some r0, some e0 => (WResult.returned r0 e0 tries, [])
      | _, _ => (WResult.unboundLocal, [])

/-- Model of `wait_for(func, delay, num_sec, ignore_falsy)` of `utils/helpers.py`:
`end_time = time.time() + num_sec` consumes `clock 0`, the loop starts with
`tries = 0` and both locals unbound. -/
def wait_for {α : Type} (ops : Nat → Except PyErr α) (tru : α → Bool) (clock : Nat → Int)
    (delay numSec : Int) (ignoreFalsy : Bool) (fuel : Nat) : WResult α × List WEvent :=
  waitForLoop ops tru clock (clock 0 + numSec) delay ignoreFalsy fuel 1 0 none none

/-- Model of `GHActionUnitTests.get_num_of_tests`: the outcome of `get_logs` (which
raises `SitrepsError` when fetching runs or logs fails) is passed in as a
parameter; there is no try/except in this method, so a fetch error
propagates.  With no logs it returns 0; otherwise the sum of the per-log
counts. -/
def ghActionNumOfTests (logsFetch : Except PyErr (List (List Char)))
    (testTool : Option (List Char)) : Except PyErr (Option Nat) :=
  match logsFetch with
  | Except.error e => Except.error e
  | Except.ok logs =>
    if logs.isEmpty then Except.ok (some 0)
    else Except.ok (some ((logs.map (fun l => get_tests_count_opt l testTool)).sum))

/-- First positive per-log count, else 0 — the loop of
`TravisUnitTests.get_num_of_tests`. -/
def firstPositive (testTool : Option (List Char)) : List (List Char) → Nat
  | [] => 0
  | l :: ls =>
    let n := get_tests_count_opt l testTool
    if 0 < n then n else firstPositive testTool ls

/-- Model of `TravisUnitTests.get_num_of_tests`: `get_logs` is a generator function,
so the try/except around `log_generator = self.get_logs()` cannot catch a
fetch failure — the body of `get_logs` only runs lazily during the `for`
loop, outside the try, and its `SitrepsError` propagates out of
`get_num_of_tests`.  On success: the first log with a positive count wins,
else 0. -/
def travisNumOfTests (logsFetch : Except PyErr (List (List Char)))
    (testTool : Option (List Char)) : Except PyErr (Option Nat) :=
  match logsFetch with
  | Except.error e => Except.error e
  | Except.ok logs => Except.ok (some (firstPositive testTool logs))

/-- Model of `CIUnitTests.get_num_of_tests` (the Jenkins collector): the broad
`except Exception` around the download returns `None` on any fetch failure,
so this collector really reports absent. -/
def ciNumOfTests (fetchText : Except PyErr (List Char))
    (testTool : Option (List Char)) : Except PyErr (Option Nat) :=
  match fetchText with
  | Except.error _ => Except.ok none
  | Except.ok s => Except.ok (some (get_tests_count_opt s testTool))

/-- The per-collector wrap-up loop of `get_unit_tests`:
`except SitrepsError: unit_tests[key] = 0` converts a propagated fetch error
into the reported value 0. -/
def reportCollector (r : Except PyErr (Option Nat)) : Option Nat :=
  match r with
  | Except.error _ => some 0
  | Except.ok v => v

/-- The value `get_unit_tests` stores for the `gh_action` key. -/
def reportGhAction (logsFetch : Except PyErr (List (List Char)))
    (testTool : Option (List Char)) : Option Nat :=
  reportCollector (ghActionNumOfTests logsFetch testTool)

/-- The value `get_unit_tests` stores for the `travis` key. -/
def reportTravis (logsFetch : Except PyErr (List (List Char)))
    (testTool : Option (List Char)) : Option Nat :=
  reportCollector (travisNumOfTests logsFetch testTool)

/-- The value `get_unit_tests` stores for the `jenkins` key. -/
def reportJenkins (fetchText : Except PyErr (List Char))
    (testTool : Option (List Char)) : Option Nat :=
  reportCollector (ciNumOfTests fetchText testTool)

theorem lineCount_eq_spec (tools : List (List Char)) (line : List Char) :
    lineCount tools line = specLineCount tools line := by
  simp only [lineCount, specLineCount, firstTool, toolCond, toolKey, guardB, extractB]
  split_ifs <;> rfl

theorem firstTool_cond (tools : List (List Char)) (line : List Char) (t : ToolName)
    (h : firstTool tools line = some t) : toolCond t tools line = true := by
  unfold firstTool at h
  split_ifs at h <;> simp_all

theorem countLines_eq_spec (tools : List (List Char)) (ls : List (List Char)) :
    countLines tools ls = specCountLines tools ls := by
  induction ls with
  | nil => rfl
  | cons l ls ih =>
    simp only [countLines, specCountLines, lineCount_eq_spec, ih]

theorem prefB_append (n : List Char) : ∀ h y : List Char, prefB n h = true → prefB n (h ++ y) = true := by
  induction n with
  | nil => intro h y _; rfl
  | cons a n' ih =>
    intro h y hp
    cases h with
    | nil => exact absurd hp (by simp [prefB])
    | cons b h' =>
      simp only [prefB, Bool.and_eq_true] at hp
      simp only [List.cons_append, prefB, Bool.and_eq_true]
      exact ⟨hp.1, ih h' y hp.2⟩

theorem hasSub_empty_needle : ∀ y : List Char, hasSub [] y = true := by
  intro y
  cases y with
  | nil => rfl
  | cons a t => simp [hasSub, prefB]

theorem hasSub_append_right (n : List Char) : ∀ h y : List Char, hasSub n h = true → hasSub n (h ++ y) = true := by
  intro h
  induction h with
  | nil =>
    intro y hs
    have hn : n = [] := by
      cases n with
      | nil => rfl
      | cons a n' => exact absurd hs (by simp [hasSub, prefB])
    subst hn
    exact hasSub_empty_needle y
  | cons a t ih =>
    intro y hs
    simp only [hasSub, Bool.or_eq_true] at hs
    simp only [List.cons_append, hasSub, Bool.or_eq_true]
    rcases hs with hs | hs
    · exact Or.inl (by simpa [List.cons_append] using prefB_append n (a :: t) y hs)
    · exact Or.inr (ih y hs)

theorem hasSub_append_left (n : List Char) (h : List Char) (hs : hasSub n h = true) :
    ∀ x : List Char, hasSub n (x ++ h) = true := by
  intro x
  induction x with
  | nil => simpa using hs
  | cons c x' ih =>
    simp only [List.cons_append, hasSub, Bool.or_eq_true]
    exact Or.inr ih

theorem escapeAnsiF_cons_ne (f : Nat) (c : Char) (rest : List Char) (h : c ≠ '\x1b') :
    escapeAnsiF (f + 1) (c :: rest) = c :: escapeAnsiF f rest := by
  rw [escapeAnsiF.eq_def]
  simp [h]

theorem escapeAnsiF_clean : ∀ (s : List Char) (f : Nat), (∀ c ∈ s, c ≠ '\x1b') → escapeAnsiF f s = s := by
  intro s
  induction s with
  | nil => intro f _; cases f <;> rfl
  | cons c s' ih =>
    intro f hc
    cases f with
    | zero => rfl
    | succ f' =>
      have h1 : c ≠ '\x1b' := hc c (by simp)
      rw [escapeAnsiF_cons_ne f' c s' h1, ih f' (fun d hd => hc d (by simp [hd]))]

theorem escapeAnsiF_append : ∀ (X : List Char), (∀ c ∈ X, c ≠ '\x1b') → ∀ (Y : List Char) (f : Nat),
    escapeAnsiF (X.length + f) (X ++ Y) = X ++ escapeAnsiF f Y := by
  intro X
  induction X with
  | nil => intro _ Y f; simp
  | cons c X' ih =>
    intro hc Y f
    have h1 : c ≠ '\x1b' := hc c (by simp)
    have hlen : (c :: X').length + f = (X'.length + f) + 1 := by
      simp [List.length_cons]
      omega
    rw [hlen, List.cons_append, escapeAnsiF_cons_ne (X'.length + f) c (X' ++ Y) h1,
      ih (fun d hd => hc d (by simp [hd])) Y f, List.cons_append]

theorem escape_ansi_clean (s : List Char) (h : ∀ c ∈ s, c ≠ '\x1b') : escape_ansi s = s :=
  escapeAnsiF_clean s s.length h

theorem escape_ansi_append_clean (X Y : List Char) (h : ∀ c ∈ X, c ≠ '\x1b') :
    escape_ansi (X ++ Y) = X ++ escape_ansi Y := by
  unfold escape_ansi
  rw [List.length_append, escapeAnsiF_append X h Y Y.length]

theorem splitlines_char (c : Char) (rest : List Char) (h : isLineBreakChar c = false) :
    splitlines (c :: rest) = match splitlines rest with | [] => [[c]] | l :: ls => (c :: l) :: ls := by
  rw [splitlines.eq_def]
  simp [h]

theorem splitlines_crlf (rest : List Char) : splitlines ('\r' :: '\n' :: rest) = [] :: splitlines rest := by
  rfl

theorem splitlines_break (c : Char) (rest : List Char) (hb : isLineBreakChar c = true)
    (h : c = '\r' → ∀ r2, rest ≠ '\n' :: r2) :
    splitlines (c :: rest) = [] :: splitlines rest := by
  rw [splitlines.eq_def]
  simp only [hb, if_true]
  cases rest with
  | nil => rfl
  | cons c2 rest2 =>
    by_cases hc : c = '\r'
    · have h2 : ¬(c2 = '\n') := fun hn => h hc rest2 (by rw [hn])
      simp [hc, h2]
    · simp [hc]

theorem splitlines_concat : ∀ (X Y : List Char), X ≠ [] → (∀ c ∈ X, isLineBreakChar c = false) →
    splitlines (X ++ Y) = match splitlines Y with | [] => [X] | l :: ls => (X ++ l) :: ls
  | [], _, hX, _ => absurd rfl hX
  | [x], Y, _, hnb => by
    have hx : isLineBreakChar x = false := hnb x (by simp)
    rw [List.singleton_append, splitlines_char x Y hx]
    cases hsy : splitlines Y with
    | nil => rfl
    | cons l ls => simp
  | x :: x2 :: X', Y, _, hnb => by
    have hx : isLineBreakChar x = false := hnb x (by simp)
    rw [List.cons_append, splitlines_char x _ hx,
      splitlines_concat (x2 :: X') Y (by simp) (fun c hc => hnb c (List.mem_cons_of_mem x hc))]
    cases hsy : splitlines Y with
    | nil => rfl
    | cons l ls => simp

/-- Seam decomposition: appending text after a break-free non-empty block `M`
changes only the line in which `M` sits and the lines after it; the lines
before that line are unchanged, and `M` stays inside its line. -/
theorem splitlines_seam (M Bp : List Char) (hM : M ≠ [])
    (hMnb : ∀ c ∈ M, isLineBreakChar c = false) :
    ∀ n A, A.length ≤ n →
      ∃ P u v T, splitlines (A ++ (M ++ Bp)) = P ++ ((u ++ (M ++ v)) :: T) ∧
        splitlines (A ++ M) = P ++ [u ++ M] := by
  have base : ∃ P u v T, splitlines ([] ++ (M ++ Bp)) = P ++ ((u ++ (M ++ v)) :: T) ∧
      splitlines ([] ++ M) = P ++ [u ++ M] := by
    rw [List.nil_append, List.nil_append]
    rw [splitlines_concat M Bp hM hMnb]
    have hM2 : splitlines M = [M] := by
      have := splitlines_concat M [] hM hMnb
      rw [List.append_nil] at this
      rw [this]
      rfl
    cases hsb : splitlines Bp with
    | nil => exact ⟨[], [], [], [], by simp, by simp [hM2]⟩
    | cons l ls => exact ⟨[], [], l, ls, by simp, by simp [hM2]⟩
  intro n
  induction n with
  | zero =>
    intro A hA
    have hA0 : A = [] := by
      cases A with
      | nil => rfl
      | cons a A' => simp at hA
    subst hA0
    exact base
  | succ n ih =>
    intro A hA
    cases A with
    | nil => exact base
    | cons c A' =>
      by_cases hb : isLineBreakChar c = true
      · by_cases hcr : c = '\r' ∧ ∃ A'', A' = '\n' :: A''
        · obtain ⟨hc, A'', hA''⟩ := hcr
          subst hc
          subst hA''
          obtain ⟨P, u, v, T, h1, h2⟩ := ih A'' (by simp at hA; omega)
          refine ⟨[] :: P, u, v, T, ?_, ?_⟩
          · rw [List.cons_append, List.cons_append, splitlines_crlf, h1, List.cons_append]
          · rw [List.cons_append, List.cons_append, splitlines_crlf, h2, List.cons_append]
        · have hhead : ∀ Y : List Char, (Y = M ++ Bp ∨ Y = M) →
              (c = '\r' → ∀ r2, A' ++ Y ≠ '\n' :: r2) := by
            intro Y hY hc r2 heq
            cases A' with
            | nil =>
              rw [List.nil_append] at heq
              cases M with
              | nil => exact hM rfl
              | cons m0 M' =>
                have hm0 : isLineBreakChar m0 = false := hMnb m0 (by simp)
                have hm0n : m0 = '\n' := by
                  rcases hY with rfl | rfl
                  · rw [List.cons_append] at heq
                    exact (List.cons.injEq _ _ _ _ ▸ heq :
                      m0 = '\n' ∧ M' ++ Bp = r2).1
                  · exact (List.cons.injEq _ _ _ _ ▸ heq : m0 = '\n' ∧ M' = r2).1
                rw [hm0n] at hm0
                simp [isLineBreakChar] at hm0
            | cons d A'' =>
              have hd : d = '\n' := by
                rw [List.cons_append] at heq
                exact (List.cons.injEq _ _ _ _ ▸ heq : d = '\n' ∧ A'' ++ Y = r2).1
              exact hcr ⟨hc, A'', by rw [hd]⟩
          obtain ⟨P, u, v, T, h1, h2⟩ := ih A' (by simp at hA; omega)
          refine ⟨[] :: P, u, v, T, ?_, ?_⟩
          · rw [List.cons_append, splitlines_break c _ hb (hhead (M ++ Bp) (Or.inl rfl)),
              h1, List.cons_append]
          · rw [List.cons_append, splitlines_break c _ hb (hhead M (Or.inr rfl)),
              h2, List.cons_append]
      · have hb' : isLineBreakChar c = false := by
          cases hbc : isLineBreakChar c with
          | false => rfl
          | true => exact absurd hbc hb
        obtain ⟨P, u, v, T, h1, h2⟩ := ih A' (by simp at hA; omega)
        cases P with
        | nil =>
          refine ⟨[], c :: u, v, T, ?_, ?_⟩
          · rw [List.cons_append, splitlines_char c _ hb', h1]
            simp
          · rw [List.cons_append, splitlines_char c _ hb', h2]
            simp
        | cons p ps =>
          refine ⟨(c :: p) :: ps, u, v, T, ?_, ?_⟩
          · rw [List.cons_append, splitlines_char c _ hb', h1]
            simp
          · rw [List.cons_append, splitlines_char c _ hb', h2]
            simp

theorem countLines_term (tools : List (List Char)) (P : List (List Char)) (L1 L2 : List Char)
    (T : List (List Char)) (h1 : isTermLine L1 = true) (h2 : isTermLine L2 = true) :
    countLines tools (P ++ (L1 :: T)) = countLines tools (P ++ [L2]) := by
  induction P with
  | nil => simp [countLines, h1, h2]
  | cons p ps ih => simp only [List.cons_append, countLines, List.append_eq, ih]

/-- C2 counterexample: with the spec-modelled ANSI stripper, a log prefix that
ends in an unterminated CSI introducer (ESC `[`) swallows the first letter of
the termination marker, so for `logA = ESC[`, `marker =
https://codecov.io/upload` and `logB = \ncollected 5 items` the two counts
differ: lines after the marker do affect the total. -/
theorem C2_counterexample :
    get_tests_count [chs "pytest"]
      (chs "\x1b[" ++ chs "https://codecov.io/upload" ++ chs "\ncollected 5 items") = 5 ∧
    get_tests_count [chs "pytest"] (chs "\x1b[" ++ chs "https://codecov.io/upload") = 0 ∧
    (5 : Nat) ≠ 0 := by
  refine ⟨by decide, by decide, by decide⟩

/-- C2 (amended): lines occurring after a termination-marker line never
affect the total, provided the ESC character occurs in neither `logA` nor the
marker (so the spec-modelled ANSI stripping cannot consume marker text) and
the marker is a genuine single line (it contains one of the two termination
substrings and no line-break character).  No restriction is needed on
`logB`. -/
theorem C2_theorem (tools : List (List Char)) (A M B : List Char)
    (hA : ∀ c ∈ A, c ≠ '\x1b') (hMe : ∀ c ∈ M, c ≠ '\x1b')
    (hMnb : ∀ c ∈ M, isLineBreakChar c = false)
    (hmark : hasSub (chs "https://codecov.io/upload") M = true ∨
      hasSub (chs "bonfire deploy-iqe-cji") M = true) :
    get_tests_count tools (A ++ M ++ B) = get_tests_count tools (A ++ M) := by
  have hM : M ≠ [] := by
    intro hM0
    subst hM0
    rcases hmark with h | h
    · exact absurd h (by decide)
    · exact absurd h (by decide)
  have hAM : ∀ c ∈ A ++ M, c ≠ '\x1b' := by
    intro c hc
    rcases List.mem_append.mp hc with h | h
    · exact hA c h
    · exact hMe c h
  unfold get_tests_count
  have e1 : escape_ansi (A ++ M ++ B) = A ++ (M ++ escape_ansi B) := by
    rw [escape_ansi_append_clean (A ++ M) B hAM, List.append_assoc]
  have e2 : escape_ansi (A ++ M) = A ++ M := escape_ansi_clean (A ++ M) hAM
  rw [e1, e2]
  obtain ⟨P, u, v, T, s1, s2⟩ :=
    splitlines_seam M (escape_ansi B) hM hMnb A.length A (le_refl _)
  rw [s1, s2]
  apply countLines_term
  · unfold isTermLine
    rcases hmark with h | h
    · rw [hasSub_append_left _ _ (hasSub_append_right _ M v h) u]
      rfl
    · rw [hasSub_append_left _ _ (hasSub_append_right _ M v h) u]
      simp
  · unfold isTermLine
    rcases hmark with h | h
    · rw [hasSub_append_left _ _ h u]
      rfl
    · rw [hasSub_append_left _ _ h u]
      simp

/-- C2 witness: the amended statement evaluated on a concrete log, marker and
suffix. -/
theorem C2_witness :
    get_tests_count [chs "pytest"]
      (chs "foo\n" ++ chs "https://codecov.io/upload" ++ chs "\ncollected 9 items") =
    get_tests_count [chs "pytest"] (chs "foo\n" ++ chs "https://codecov.io/upload") :=
  C2_theorem [chs "pytest"] (chs "foo\n") (chs "https://codecov.io/upload")
    (chs "\ncollected 9 items") (by decide) (by decide) (by decide) (Or.inl (by decide))

/-- C1 counterexample: the line `=== RUN collected 5 items` matches both the
gotest branch condition and the pytest branch condition when both tools are
supplied, the per-tool extractions are 1 and 5, yet `_get_tests_count`
returns 1, not the per-tool sum 6 that independent cross-tool contribution
would give: the `continue` after the gotest branch skips the pytest branch. -/
theorem C1_counterexample :
    get_tests_count [chs "gotest", chs "pytest"] (chs "=== RUN collected 5 items") = 1 ∧
    toolCond ToolName.gotest [chs "gotest", chs "pytest"] (chs "=== RUN collected 5 items") = true ∧
    toolCond ToolName.pytest [chs "gotest", chs "pytest"] (chs "=== RUN collected 5 items") = true ∧
    toolLineCount ToolName.gotest (chs "=== RUN collected 5 items") +
      toolLineCount ToolName.pytest (chs "=== RUN collected 5 items") = 6 ∧
    (1 : Nat) ≠ 6 := by
  refine ⟨by decide, by decide, by decide, by decide, by decide⟩

/-- C1 (amended): a line never contributes to more than one tool's total;
`_get_tests_count` credits each line to the first tool, in the fixed branch
order gotest, pytest, pyunittest, npm, rake, maven, other, whose membership
test and substring guard both hold, because every branch ends in `continue`. -/
theorem C1_theorem (tools : List (List Char)) (ciLog : List Char) :
    get_tests_count tools ciLog = specCountLines tools (splitlines (escape_ansi ciLog)) :=
  countLines_eq_spec tools (splitlines (escape_ansi ciLog))

/-- C6: on the log `collected 12 items` / `=== RUN TestFoo` /
`collected 3 items`, `_get_tests_count` returns 15 for tools pytest, 1 for
tools gotest, and 16 for tools pytest,gotest. -/
theorem C6_theorem :
    get_tests_count_opt (chs "collected 12 items\n=== RUN TestFoo\ncollected 3 items") (some (chs "pytest")) = 15 ∧
    get_tests_count_opt (chs "collected 12 items\n=== RUN TestFoo\ncollected 3 items") (some (chs "gotest")) = 1 ∧
    get_tests_count_opt (chs "collected 12 items\n=== RUN TestFoo\ncollected 3 items") (some (chs "pytest,gotest")) = 16 := by
  refine ⟨by decide, by decide, by decide⟩

/-- C7: every scanned line contributes to at most one tool's running total:
the contribution of a line in `_get_tests_count` equals the single-tool
contribution of one tool whose branch condition holds, or is zero. -/
theorem C7_theorem (tools : List (List Char)) (line : List Char) :
    ∃ o : Option ToolName,
      lineCount tools line = (match o with | some t => toolLineCount t line | none => 0) ∧
      ∀ t, o = some t → toolCond t tools line = true := by
  refine ⟨firstTool tools line, ?_, ?_⟩
  · rw [lineCount_eq_spec]
    unfold specLineCount
    cases h : firstTool tools line with
    | none => rfl
    | some t =>
      have hc := firstTool_cond tools line t h
      have hg : guardB t line = true := by
        have := hc
        unfold toolCond at this
        exact (Bool.and_eq_true _ _ |>.mp this).2
      simp [toolLineCount, hg]
  · intro t ht
    exact firstTool_cond tools line t ht

/-- C7 witness: the single-attribution decomposition evaluated on a concrete
tool collection and line. -/
theorem C7_witness :
    ∃ o : Option ToolName,
      lineCount [chs "gotest"] (chs "=== RUN TestFoo") = (match o with | some t => toolLineCount t (chs "=== RUN TestFoo") | none => 0) ∧
      ∀ t, o = some t → toolCond t [chs "gotest"] (chs "=== RUN TestFoo") = true :=
  C7_theorem [chs "gotest"] (chs "=== RUN TestFoo")

/-- C3 counterexample: when the located `c` value is the malformed string
`cov`, `get_coverage` raises `ValueError` from the unguarded
`float(coverage_ratio_str)` call rather than returning absent. -/
theorem C3_counterexample :
    get_coverage (Json.obj [(chs "commit", Json.obj [(chs "totals",
      Json.obj [(chs "c", Json.str (chs "cov"))])])]) = Except.error () ∧
    (Except.error () : Except Unit (Option Rat)) ≠ Except.ok none :=
  ⟨rfl, by intro h; cases h⟩

/-- C3 (amended): the JSON `commit.totals.c = "92.5"` yields the ratio 92.5
and the empty JSON object yields absent, as claimed; but a malformed
(non-numeric) `c` string makes `float` raise `ValueError`, which
`get_coverage` does not catch — the result is a raised error, not absent. -/
theorem C3_theorem :
    get_coverage (Json.obj [(chs "commit", Json.obj [(chs "totals",
      Json.obj [(chs "c", Json.str (chs "92.5"))])])]) = Except.ok (some (mkRat 185 2)) ∧
    get_coverage (Json.obj []) = Except.ok none ∧
    get_coverage (Json.obj [(chs "commit", Json.obj [(chs "totals",
      Json.obj [(chs "c", Json.str (chs "cov"))])])]) = Except.error () :=
  ⟨rfl, rfl, rfl⟩

/-- C10: whenever the pattern matched the string but the first capture group
is missing (`IndexError`) or its captured text is not parseable as a float
(`ValueError`), `get_regex_cov` returns absent and the exception does not
escape. -/
theorem C10_theorem (m : ReMatch)
    (h : m.group1 = Except.error () ∨
      ∃ s, m.group1 = Except.ok (some s) ∧ pyFloat s = none) :
    get_regex_cov (some m) = Except.ok none := by
  rcases h with h | ⟨s, hs, hp⟩
  · simp only [get_regex_cov, h]
  · simp only [get_regex_cov, hs, hp]

/-- C10 witness: a match whose pattern has no capture group yields absent. -/
theorem C10_witness : get_regex_cov (some ⟨Except.error ()⟩) = Except.ok none :=
  C10_theorem ⟨Except.error ()⟩ (Or.inl rfl)

example : pyFloat (chs "92.5") = some (mkRat 185 2) := by decide

example : pyFloat (chs "87") = some (mkRat 87 1) := by decide

example : pyFloat (chs "cov") = none := by decide

theorem waitForLoop_returns {α : Type} (ops : Nat → Except PyErr α) (tru : α → Bool)
    (clock : Nat → Int) (endTime delay : Int) (iF : Bool) (hd : ¬delay < 0) :
    ∀ (fuel k tries : Nat) (r0 : Option α) (e0 : Option PyErr),
      (waitForLoop ops tru clock endTime delay iF fuel k tries (some r0) (some e0)).1 =
        WResult.outOfFuel ∨
      ∃ resp err tries2,
        (waitForLoop ops tru clock endTime delay iF fuel k tries (some r0) (some e0)).1 =
          WResult.returned resp err tries2 := by
  intro fuel
  induction fuel with
  | zero =>
    intro k tries r0 e0
    exact Or.inl rfl
  | succ f ih =>
    intro k tries r0 e0
    by_cases hc : clock k < endTime
    · simp only [waitForLoop, if_pos hc]
      cases hop : ops tries with
      | error e =>
        simpa using ih (k + 1) (tries + 1) none (some e)
      | ok v =>
        by_cases ht : (tru v || iF) = true
        · simp [ht]
        · simp only [Bool.not_eq_true] at ht
          simpa [ht, hd] using ih (k + 1) (tries + 1) (some v) none
    · simp only [waitForLoop, if_neg hc]
      exact Or.inr ⟨r0, e0, tries, rfl⟩

/-- C4 counterexample: with `num_sec = 0` and a monotone clock the loop body
never runs, so the final `return response, err, tries` refers to locals that
were never assigned and `wait_for` raises `UnboundLocalError` instead of
returning a triple. -/
theorem C4_counterexample :
    (wait_for (fun _ => Except.ok (1 : Nat)) (fun n => n != 0) (fun k => (k : Int))
      1 0 false 5).1 = WResult.unboundLocal := by
  decide

/-- C4 (amended): whenever the first loop-condition check passes (for example
whenever `num_sec > 0` and the clock has not already advanced past the
budget) and `delay` is non-negative, `wait_for` never raises: every
terminating run returns the `(response, err, tries)` triple, with all
failure signalling in the error slot (`outOfFuel` stands for a run that is
still looping).  Outside these conditions it can raise: `UnboundLocalError`
when the loop body never runs (e.g. `num_sec ≤ 0` under a monotone clock),
and `ValueError` from `time.sleep` when `delay < 0` and a falsy result
arrives before the budget expires. -/
theorem C4_theorem {α : Type} (ops : Nat → Except PyErr α) (tru : α → Bool) (clock : Nat → Int)
    (delay numSec : Int) (iF : Bool) (fuel : Nat) (h : clock 1 < clock 0 + numSec)
    (hd : ¬delay < 0) :
    (wait_for ops tru clock delay numSec iF fuel).1 = WResult.outOfFuel ∨
    ∃ resp err tries,
      (wait_for ops tru clock delay numSec iF fuel).1 = WResult.returned resp err tries := by
  unfold wait_for
  cases fuel with
  | zero => exact Or.inl rfl
  | succ f =>
    simp only [waitForLoop, if_pos h]
    cases hop : ops 0 with
    | error e =>
      simpa using
        waitForLoop_returns ops tru clock (clock 0 + numSec) delay iF hd f 2 1 none (some e)
    | ok v =>
      by_cases ht : (tru v || iF) = true
      · simp [ht]
      · simp only [Bool.not_eq_true] at ht
        simpa [ht, hd] using
          waitForLoop_returns ops tru clock (clock 0 + numSec) delay iF hd f 2 1 (some v) none

/-- C4 witness: a run whose first check passes and whose delay is
non-negative returns normally. -/
theorem C4_witness :
    (wait_for (fun _ => Except.ok (1 : Nat)) (fun n => n != 0) (fun k => (k : Int))
      1 5 false 3).1 = WResult.outOfFuel ∨
    ∃ resp err tries,
      (wait_for (fun _ => Except.ok (1 : Nat)) (fun n => n != 0) (fun k => (k : Int))
        1 5 false 3).1 = WResult.returned resp err tries :=
  C4_theorem (fun _ => Except.ok (1 : Nat)) (fun n => n != 0) (fun k => (k : Int))
    1 5 false 3 (by decide) (by decide)

example :
    (wait_for (fun _ => Except.ok (0 : Nat)) (fun n => n != 0) (fun k => (k : Int))
      (-1) 10 false 5).1 = WResult.sleepError := by
  decide

theorem waitForLoop_head {α : Type} (ops : Nat → Except PyErr α) (tru : α → Bool)
    (clock : Nat → Int) (endTime delay : Int) (iF : Bool) :
    ∀ (fuel k tries : Nat) (resp : Option (Option α)) (err : Option (Option PyErr)),
      (waitForLoop ops tru clock endTime delay iF fuel k tries resp err).2 = [] ∨
      ∃ b rest, (waitForLoop ops tru clock endTime delay iF fuel k tries resp err).2 =
        WEvent.call tries b :: rest := by
  intro fuel k tries resp err
  cases fuel with
  | zero => exact Or.inl rfl
  | succ f =>
    by_cases hc : clock k < endTime
    · simp only [waitForLoop, if_pos hc]
      cases hop : ops tries with
      | error e => exact Or.inr ⟨true, _, rfl⟩
      | ok v =>
        by_cases ht : (tru v || iF) = true
        · simp only [ht, if_true]
          exact Or.inr ⟨false, _, rfl⟩
        · simp only [Bool.not_eq_true] at ht
          simp only [ht, Bool.false_eq_true, if_false]
          by_cases hd : delay < 0
          · simp only [hd, if_true]
            exact Or.inr ⟨false, _, rfl⟩
          · simp only [hd, if_false]
            exact Or.inr ⟨false, _, rfl⟩
    · simp only [waitForLoop, if_neg hc]
      cases resp with
      | none => exact Or.inl rfl
      | some r0 =>
        cases err with
        | none => exact Or.inl rfl
        | some e0 => exact Or.inl rfl

theorem waitForLoop_succ_error {α : Type} (ops : Nat → Except PyErr α) (tru : α → Bool)
    (clock : Nat → Int) (endTime delay : Int) (iF : Bool) (f k tries : Nat)
    (resp : Option (Option α)) (err : Option (Option PyErr)) (e : PyErr)
    (hc : clock k < endTime) (hop : ops tries = Except.error e) :
    waitForLoop ops tru clock endTime delay iF (f + 1) k tries resp err =
      ((waitForLoop ops tru clock endTime delay iF f (k + 1) (tries + 1)
          (some none) (some (some e))).1,
        WEvent.call tries true ::
          (waitForLoop ops tru clock endTime delay iF f (k + 1) (tries + 1)
            (some none) (some (some e))).2) := by
  simp only [waitForLoop, if_pos hc, hop]

theorem waitForLoop_succ_ok_ret {α : Type} (ops : Nat → Except PyErr α) (tru : α → Bool)
    (clock : Nat → Int) (endTime delay : Int) (iF : Bool) (f k tries : Nat)
    (resp : Option (Option α)) (err : Option (Option PyErr)) (v : α)
    (hc : clock k < endTime) (hop : ops tries = Except.ok v) (ht : (tru v || iF) = true) :
    waitForLoop ops tru clock endTime delay iF (f + 1) k tries resp err =
      (WResult.returned (some v) none (tries + 1), [WEvent.call tries false]) := by
  simp only [waitForLoop, if_pos hc, hop, ht, if_true]

theorem waitForLoop_succ_ok_sleep {α : Type} (ops : Nat → Except PyErr α) (tru : α → Bool)
    (clock : Nat → Int) (endTime delay : Int) (iF : Bool) (f k tries : Nat)
    (resp : Option (Option α)) (err : Option (Option PyErr)) (v : α)
    (hc : clock k < endTime) (hop : ops tries = Except.ok v) (ht : (tru v || iF) = false)
    (hd : ¬delay < 0) :
    waitForLoop ops tru clock endTime delay iF (f + 1) k tries resp err =
      ((waitForLoop ops tru clock endTime delay iF f (k + 1) (tries + 1)
          (some (some v)) (some none)).1,
        WEvent.call tries false :: WEvent.sleep delay ::
          (waitForLoop ops tru clock endTime delay iF f (k + 1) (tries + 1)
            (some (some v)) (some none)).2) := by
  simp only [waitForLoop, if_pos hc, hop, ht, Bool.false_eq_true, if_false, hd]

theorem waitForLoop_succ_ok_err {α : Type} (ops : Nat → Except PyErr α) (tru : α → Bool)
    (clock : Nat → Int) (endTime delay : Int) (iF : Bool) (f k tries : Nat)
    (resp : Option (Option α)) (err : Option (Option PyErr)) (v : α)
    (hc : clock k < endTime) (hop : ops tries = Except.ok v) (ht : (tru v || iF) = false)
    (hd : delay < 0) :
    waitForLoop ops tru clock endTime delay iF (f + 1) k tries resp err =
      (WResult.sleepError, [WEvent.call tries false]) := by
  simp only [waitForLoop, if_pos hc, hop, ht, Bool.false_eq_true, if_false, hd, if_true]

theorem waitForLoop_stop_trace {α : Type} (ops : Nat → Except PyErr α) (tru : α → Bool)
    (clock : Nat → Int) (endTime delay : Int) (iF : Bool) (f k tries : Nat)
    (resp : Option (Option α)) (err : Option (Option PyErr))
    (hc : ¬clock k < endTime) :
    (waitForLoop ops tru clock endTime delay iF (f + 1) k tries resp err).2 = [] := by
  simp only [waitForLoop, if_neg hc]
  cases resp with
  | none => rfl
  | some r0 =>
    cases err with
    | none => rfl
    | some e0 => rfl

theorem waitForLoop_after_raise {α : Type} (ops : Nat → Except PyErr α) (tru : α → Bool)
    (clock : Nat → Int) (endTime delay : Int) (iF : Bool) :
    ∀ (fuel k tries : Nat) (resp : Option (Option α)) (err : Option (Option PyErr)) (j i : Nat),
      (waitForLoop ops tru clock endTime delay iF fuel k tries resp err).2.get? j =
        some (WEvent.call i true) →
      j + 1 < (waitForLoop ops tru clock endTime delay iF fuel k tries resp err).2.length →
      ∃ b, (waitForLoop ops tru clock endTime delay iF fuel k tries resp err).2.get? (j + 1) =
        some (WEvent.call (i + 1) b) := by
  intro fuel
  induction fuel with
  | zero =>
    intro k tries resp err j i hj hlen
    simp [waitForLoop] at hj
  | succ f ih =>
    intro k tries resp err j i hj hlen
    by_cases hc : clock k < endTime
    · cases hop : ops tries with
      | error e =>
        rw [waitForLoop_succ_error ops tru clock endTime delay iF f k tries resp err e hc hop]
          at hj hlen ⊢
        cases j with
        | zero =>
          simp only [List.get?] at hj
          have hi : tries = i := by
            simpa using hj
          subst hi
          rcases waitForLoop_head ops tru clock endTime delay iF f (k + 1) (tries + 1)
            (some none) (some (some e)) with hz | ⟨b, rest, hz⟩
          · rw [List.length_cons, hz] at hlen
            simp at hlen
          · refine ⟨b, ?_⟩
            simp only [List.get?, hz]
        | succ j' =>
          simp only [List.get?] at hj ⊢
          rw [List.length_cons] at hlen
          exact ih (k + 1) (tries + 1) (some none) (some (some e)) j' i hj (by omega)
      | ok v =>
        by_cases ht : (tru v || iF) = true
        · rw [waitForLoop_succ_ok_ret ops tru clock endTime delay iF f k tries resp err v
            hc hop ht] at hj hlen ⊢
          cases j with
          | zero => simp at hj
          | succ j' =>
            simp only [List.get?] at hj
            cases j' <;> simp at hj
        · have ht' : (tru v || iF) = false := by
            cases hb : (tru v || iF) with
            | false => rfl
            | true => exact absurd hb ht
          by_cases hd : delay < 0
          · rw [waitForLoop_succ_ok_err ops tru clock endTime delay iF f k tries resp err v
              hc hop ht' hd] at hj hlen ⊢
            cases j with
            | zero => simp at hj
            | succ j' =>
              simp only [List.get?] at hj
              cases j' <;> simp at hj
          · rw [waitForLoop_succ_ok_sleep ops tru clock endTime delay iF f k tries resp err v
              hc hop ht' hd] at hj hlen ⊢
            cases j with
            | zero => simp at hj
            | succ j' =>
              cases j' with
              | zero => simp at hj
              | succ j'' =>
                simp only [List.get?] at hj ⊢
                rw [List.length_cons, List.length_cons] at hlen
                exact ih (k + 1) (tries + 1) (some (some v)) (some none) j'' i hj (by omega)
    · rw [waitForLoop_stop_trace ops tru clock endTime delay iF f k tries resp err hc] at hj
      simp at hj

/-- C5 counterexample: an operation that raises on its first attempt and
succeeds on its second: the event trace is the two calls back to back with no
`time.sleep` between them — the `continue` in the `except` clause skips the
sleep, so the loop does not wait `delay` seconds after an exception. -/
theorem C5_counterexample :
    (wait_for (fun i => if i = 0 then Except.error (PyErr.mk 0) else Except.ok (7 : Nat))
        (fun n => n != 0) (fun k => (k : Int)) 2 10 false 4) =
      (WResult.returned (some 7) none 2, [WEvent.call 0 true, WEvent.call 1 false]) ∧
    (∀ d, WEvent.sleep d ∉ [WEvent.call 0 true, WEvent.call 1 false]) := by
  refine ⟨by decide, ?_⟩
  intro d
  simp

/-- C5 (amended): when the operation raises, the error is recorded for that
iteration and execution continues, but the loop moves to the next attempt
immediately — the event right after a raising call is the next call, never a
`time.sleep` (sleeping happens only after a falsy non-raising result). -/
theorem C5_theorem {α : Type} (ops : Nat → Except PyErr α) (tru : α → Bool) (clock : Nat → Int)
    (delay numSec : Int) (iF : Bool) (fuel : Nat) (j i : Nat)
    (h1 : (wait_for ops tru clock delay numSec iF fuel).2.get? j = some (WEvent.call i true))
    (h2 : j + 1 < (wait_for ops tru clock delay numSec iF fuel).2.length) :
    ∃ b, (wait_for ops tru clock delay numSec iF fuel).2.get? (j + 1) =
      some (WEvent.call (i + 1) b) :=
  waitForLoop_after_raise ops tru clock (clock 0 + numSec) delay iF fuel 1 0 none none j i h1 h2

/-- C5 witness: in the two-attempt run of the counterexample input, the event
following the raising call 0 is call 1. -/
theorem C5_witness :
    ∃ b, (wait_for (fun i => if i = 0 then Except.error (PyErr.mk 0) else Except.ok (7 : Nat))
        (fun n => n != 0) (fun k => (k : Int)) 2 10 false 4).2.get? 1 =
      some (WEvent.call 1 b) :=
  C5_theorem (fun i => if i = 0 then Except.error (PyErr.mk 0) else Except.ok (7 : Nat))
    (fun n => n != 0) (fun k => (k : Int)) 2 10 false 4 0 0 (by decide) (by decide)

/-- C8: an operation that raises on its first two invocations and returns a
truthy value on the third, with all three loop checks inside the time
budget, is attempted exactly 3 times; `wait_for` returns that value with an
empty (None) error slot and an attempt count of 3. -/
theorem C8_theorem {α : Type} (ops : Nat → Except PyErr α) (tru : α → Bool) (clock : Nat → Int)
    (delay numSec : Int) (iF : Bool) (fuel : Nat) (e0 e1 : PyErr) (v : α)
    (h0 : ops 0 = Except.error e0) (h1 : ops 1 = Except.error e1) (h2 : ops 2 = Except.ok v)
    (ht : tru v = true)
    (hc1 : clock 1 < clock 0 + numSec) (hc2 : clock 2 < clock 0 + numSec)
    (hc3 : clock 3 < clock 0 + numSec) (hf : 3 ≤ fuel) :
    wait_for ops tru clock delay numSec iF fuel =
      (WResult.returned (some v) none 3,
        [WEvent.call 0 true, WEvent.call 1 true, WEvent.call 2 false]) := by
  obtain ⟨f, rfl⟩ : ∃ f, fuel = f + 1 + 1 + 1 := ⟨fuel - 3, by omega⟩
  have htt : (tru v || iF) = true := by rw [ht]; rfl
  unfold wait_for
  rw [waitForLoop_succ_error ops tru clock (clock 0 + numSec) delay iF (f + 1 + 1) 1 0
    none none e0 hc1 h0]
  rw [waitForLoop_succ_error ops tru clock (clock 0 + numSec) delay iF (f + 1) 2 1
    (some none) (some (some e0)) e1 hc2 h1]
  rw [waitForLoop_succ_ok_ret ops tru clock (clock 0 + numSec) delay iF f 3 2
    (some none) (some (some e1)) v hc3 h2 htt]

/-- C8 witness: the three-attempt run on concrete inputs. -/
theorem C8_witness :
    wait_for
      (fun i => if i = 0 then Except.error (PyErr.mk 0)
        else if i = 1 then Except.error (PyErr.mk 1) else Except.ok (7 : Nat))
      (fun n => n != 0) (fun k => (k : Int)) 2 10 false 5 =
      (WResult.returned (some 7) none 3,
        [WEvent.call 0 true, WEvent.call 1 true, WEvent.call 2 false]) :=
  C8_theorem
    (fun i => if i = 0 then Except.error (PyErr.mk 0)
      else if i = 1 then Except.error (PyErr.mk 1) else Except.ok (7 : Nat))
    (fun n => n != 0) (fun k => (k : Int)) 2 10 false 5 (PyErr.mk 0) (PyErr.mk 1) 7
    rfl rfl rfl (by decide) (by decide) (by decide) (by decide) (by decide)

/-- C9 counterexample: a GitHub Actions collector whose fetch fails with
`SitrepsError` is reported as 0 by `get_unit_tests` — exactly the value
reported for a successfully scanned log with zero tests — so a failed fetch
is not distinguishable from a count of zero at the caller boundary. -/
theorem C9_counterexample :
    reportGhAction (Except.error (PyErr.mk 0)) none = some 0 ∧
    reportGhAction (Except.ok [chs "hello world"]) none = some 0 ∧
    some 0 ≠ (none : Option Nat) := by
  refine ⟨rfl, by decide, by decide⟩

/-- C9 (amended): only the Jenkins collector reports absent (None) on a
failed fetch; for the Travis and GitHub Actions collectors the fetch failure
propagates as `SitrepsError` and the `except SitrepsError` handler of
`get_unit_tests` stores 0, indistinguishable from a genuine zero count. -/
theorem C9_theorem (e : PyErr) (testTool : Option (List Char)) :
    reportGhAction (Except.error e) testTool = some 0 ∧
    reportTravis (Except.error e) testTool = some 0 ∧
    reportJenkins (Except.error e) testTool = none :=
  ⟨rfl, rfl, rfl⟩
